import Mathlib

/-!
Verification of the dynamic data pipeline of `eole/inputters/dynamic_iterator.py`:
mixing strategies (`SequentialMixer`, `WeightedMixer`), the bucketing engine
(`DynamicDatasetIter._bucketing`), the batch assembler
(`DynamicDatasetIter.batch_iter`), the device relay (`OnDeviceDatasetIter`)
and the effective `left_pad` flag computed in `DynamicDatasetIter.__init__`.

Python data is embedded shallowly: dicts keyed by corpus/field name become
association lists, Python sets become lists with membership, generators over
finite streams become functions returning lists, and the mutable loop state of
`batch_iter` becomes an explicit state record threaded through a fold.
-/

namespace Eole

/-- The task enum `CorpusTask.TRAIN/VALID/INFER` (`eole.constants.CorpusTask`). -/
inductive CorpusTask where
  | TRAIN
  | VALID
  | INFER
deriving DecidableEq, Repr

/-- `batch_type`: the two values accepted by `batch_size_fn`
(`"sents"` and `"tokens"`; any other string raises `ValueError`). -/
inductive BatchType where
  | sents
  | tokens
deriving DecidableEq, Repr

/-- A numericalized example as consumed by `batch_iter`:
`ex["src"]["src"]` is the raw source text, `ex["src"]["src_ids"]` the source
token ids, and `ex["tgt"]["tgt_ids"]` the optional target token ids. -/
structure Ex where
  src : String
  src_ids : List Nat
  tgt_ids : Option (List Nat)
deriving DecidableEq, Repr

/-- `max_src_tgt(ex)`: the max tokens between src and tgt of the example
(`len(src_ids)` alone when there is no target). -/
def max_src_tgt (ex : Ex) : Nat :=
  match ex.tgt_ids with
  | some t => max ex.src_ids.length t.length
  | none => ex.src_ids.length

/-- Python's `max` over a list of naturals (`0` on the empty list, which Python
would reject; every use below is on a nonempty list). -/
def listMax (l : List Nat) : Nat := l.foldr max 0

/-- `max_src_tgt` of an `(example, indice)` pair as used in the carry branch of
`batch_iter`. -/
def exMaxLen (p : Ex × Nat) : Nat := max_src_tgt p.1

/-- `batch_size_fn(nbsents, maxlen)` from `batch_iter`. -/
def batch_size_fn (bt : BatchType) (nbsents maxlen : Nat) : Nat :=
  match bt with
  | .sents => nbsents
  | .tokens => nbsents * maxlen

/-! ### Bucketing engine (`DynamicDatasetIter._bucketing`) -/

/-- `Modelled from the spec:` `transform_bucket` (from
`eole.inputters.text_utils`, not part of the sources under analysis) applies
the per-corpus transform pipeline and score-threshold filtering to every
example of the bucket; a transform "may reject an example (returns none)".
It is modelled as an arbitrary per-example function returning `Option`. -/
def transformBucket (tf : α → Option β) (bucket : List α) : List (Option β) :=
  bucket.map tf

/-- `DynamicDatasetIter._tuple_to_json_with_tokIDs`: run the transform pipeline
over the bucket and keep (numericalized) only the examples it did not reject.
The numericalization (`numericalize`, also external) is folded into the
codomain `β` of the transform. -/
def tuple_to_json_with_tokIDs (tf : α → Option β) (tuple_bucket : List α) : List β :=
  (transformBucket tf tuple_bucket).foldr
    (fun ex acc => match ex with | some e => e :: acc | none => acc) []

/-- The initial value of the loop variable `_bucket_size` in `_bucketing`:
`bucket_size_init` when positive, else `bucket_size`. `bucket_size_init`
defaults to `-1`, hence the `Int` type. -/
def initialBucketSize (bucket_size : Nat) (bucket_size_init : Int) : Nat :=
  if 0 < bucket_size_init then bucket_size_init.toNat else bucket_size

/-- The update of `_bucket_size` performed after each full flush in
`_bucketing`: grow by `bucket_size_increment` while strictly below
`bucket_size`, otherwise reset to exactly `bucket_size`. -/
def nextBucketSize (bucket_size bucket_size_increment cur : Nat) : Nat :=
  if cur < bucket_size then cur + bucket_size_increment else bucket_size

/-- The loop of `DynamicDatasetIter._bucketing` over a finite mixed stream:
accumulate examples, flush (transform + numericalize) each time the
accumulated bucket reaches the current target `_bucket_size`, tag each flush
with `bucket_idx`, and flush a final nonempty partial bucket at stream end. -/
def bucketingLoop (tf : α → Option β) (bucket_size bucket_size_increment : Nat) :
    List α → List α → Nat → Nat → List (List β × Nat)
  | [], bucket, bucket_idx, _ =>
      if bucket.isEmpty then [] else [(tuple_to_json_with_tokIDs tf bucket, bucket_idx)]
  | ex :: rest, bucket, bucket_idx, cur =>
      let bucket' := bucket ++ [ex]
      if bucket'.length = cur then
        (tuple_to_json_with_tokIDs tf bucket', bucket_idx) ::
          bucketingLoop tf bucket_size bucket_size_increment rest [] (bucket_idx + 1)
            (nextBucketSize bucket_size bucket_size_increment cur)
      else
        bucketingLoop tf bucket_size bucket_size_increment rest bucket' bucket_idx cur

/-- `DynamicDatasetIter._bucketing` on a finite stream, starting from an empty
bucket, `bucket_idx = 0` and the initial `_bucket_size`. -/
def bucketing (tf : α → Option β) (bucket_size : Nat) (bucket_size_init : Int)
    (bucket_size_increment : Nat) (stream : List α) : List (List β × Nat) :=
  bucketingLoop tf bucket_size bucket_size_increment stream [] 0
    (initialBucketSize bucket_size bucket_size_init)

/-- The successive values taken by `_bucket_size` across flushes: the target
size of the `n`-th flushed bucket. -/
def bucketTargetSeq (bucket_size bucket_size_increment : Nat) (bucket_size_init : Int) :
    Nat → Nat
  | 0 => initialBucketSize bucket_size bucket_size_init
  | n + 1 =>
      nextBucketSize bucket_size bucket_size_increment
        (bucketTargetSeq bucket_size bucket_size_increment bucket_size_init n)

/-! ### Batch assembler (`DynamicDatasetIter.batch_iter`) -/

/-- The mutable loop state of `batch_iter`:
`minibatch, maxlen, size_so_far, seen = [], 0, 0, set()`.
The Python `set` of raw source strings becomes a list with membership. -/
structure BatchState where
  minibatch : List (Ex × Nat)
  maxlen : Nat
  size_so_far : Nat
  seen : List String
deriving DecidableEq, Repr

/-- The initial (and reset) state of the `batch_iter` loop. -/
def initBatchState : BatchState := ⟨[], 0, 0, []⟩

/-- One iteration of the `for ex, indice in data` loop of `batch_iter`:
returns the successor state and the minibatch yielded during this iteration,
if any. Deduplication: the example is skipped iff its raw source text is
already in `seen` and the task is training. On overflow, `overflowed` is `1`
if strictly over budget plus, when `batch_size_multiple > 1`, the remainder
`(nbsents - overflowed) % batch_size_multiple`; `overflowed = 0` emits the
whole minibatch, `overflowed = nbsents` is the warning path that keeps
accumulating, and otherwise the last `overflowed` examples are carried over
with recomputed `maxlen`/`size_so_far` and a cleared `seen` set. -/
def batchIterStep (task : CorpusTask) (bt : BatchType)
    (batch_size batch_size_multiple : Nat) (st : BatchState) (exi : Ex × Nat) :
    BatchState × Option (List (Ex × Nat)) :=
  if exi.1.src ∈ st.seen ∧ task = CorpusTask.TRAIN then
    (st, none)
  else
    let seen := exi.1.src :: st.seen
    let minibatch := st.minibatch ++ [exi]
    let nbsents := minibatch.length
    let maxlen := max (max_src_tgt exi.1) st.maxlen
    let size_so_far := batch_size_fn bt nbsents maxlen
    if batch_size ≤ size_so_far then
      let o1 : Nat := if batch_size < size_so_far then 1 else 0
      let overflowed :=
        if 1 < batch_size_multiple then o1 + (nbsents - o1) % batch_size_multiple else o1
      if overflowed = 0 then
        (initBatchState, some minibatch)
      else if overflowed = nbsents then
        (⟨minibatch, maxlen, size_so_far, seen⟩, none)
      else
        let emitted := minibatch.take (nbsents - overflowed)
        let carried := minibatch.drop (nbsents - overflowed)
        let maxlen' := listMax (carried.map exMaxLen)
        (⟨carried, maxlen', batch_size_fn bt carried.length maxlen', []⟩, some emitted)
    else
      (⟨minibatch, maxlen, size_so_far, seen⟩, none)

/-- The whole `for` loop of `batch_iter` over a finite bucket, returning the
minibatches yielded inside the loop together with the final loop state. -/
def batchIterLoop (task : CorpusTask) (bt : BatchType)
    (batch_size batch_size_multiple : Nat) :
    List (Ex × Nat) → BatchState → List (List (Ex × Nat)) × BatchState
  | [], st => ([], st)
  | exi :: rest, st =>
      let step := batchIterStep task bt batch_size batch_size_multiple st exi
      let r := batchIterLoop task bt batch_size batch_size_multiple rest step.1
      (match step.2 with
       | some b => b :: r.1
       | none => r.1, r.2)

/-- `DynamicDatasetIter.batch_iter`: the loop emissions followed by the final
partial minibatch, yielded at stream end when nonempty. -/
def batch_iter (task : CorpusTask) (bt : BatchType)
    (batch_size batch_size_multiple : Nat) (data : List (Ex × Nat)) :
    List (List (Ex × Nat)) :=
  let r := batchIterLoop task bt batch_size batch_size_multiple data initBatchState
  r.1 ++ (if r.2.minibatch.isEmpty then [] else [r.2.minibatch])

/-! ### Mixing strategies (`MixingStrategy`, `SequentialMixer`, `WeightedMixer`) -/

/-- The key list of a Python dict modelled as an association list. -/
def keysOf (l : List (String × α)) : List String := l.map Prod.fst

/-- Python `dict_keys` equality (`iterables.keys() != weights.keys()` in
`MixingStrategy._valid_iterable` compares the two key views as sets). -/
def keySetEq (ks₁ ks₂ : List String) : Bool :=
  ks₁.all (fun k => ks₂.contains k) && ks₂.all (fun k => ks₁.contains k)

/-- The data held by a constructed `MixingStrategy` (shared by the
`SequentialMixer` and `WeightedMixer` subclasses, whose `__init__` both run
`_valid_iterable`). -/
structure MixingStrategyData (α : Type) where
  iterables : List (String × List α)
  weights : List (String × Nat)
deriving Repr

/-- `MixingStrategy.__init__`: validate that the key sets of `iterables` and
`weights` coincide (`_valid_iterable` raises `ValueError` otherwise), then
store both. -/
def mkMixingStrategy (iterables : List (String × List α)) (weights : List (String × Nat)) :
    Except String (MixingStrategyData α) :=
  if keySetEq (keysOf iterables) (keysOf weights) then
    .ok ⟨iterables, weights⟩
  else
    .error "keys should be equal"

/-- Dict lookup `self.iterables[ds_name]` (`[]` for a missing name; every name
produced by `_iter_datasets` is a weight key, equal to an iterable key after
validation). -/
def lookupIterable (iterables : List (String × List α)) (name : String) : List α :=
  ((iterables.find? (fun p => p.1 = name)).map Prod.snd).getD []

/-- `MixingStrategy._iter_datasets` (identical in both subclasses): each
dataset name in declared weight order, repeated `weight` times. -/
def iter_datasets (weights : List (String × Nat)) : List String :=
  weights.flatMap (fun p => List.replicate p.2 p.1)

/-- `SequentialMixer.__iter__`: `yield from iterables[ds_name]` for each
name produced by `_iter_datasets`. -/
def sequentialMixer (iterables : List (String × List α)) (weights : List (String × Nat)) :
    List α :=
  (iter_datasets weights).flatMap (fun n => lookupIterable iterables n)

/-- The spec's description of the Sequential mixer output: "exactly the
concatenation (in weight-repeated, name-declared order) of each source's full
contents, once". -/
def sequentialMixerSpec (iterables : List (String × List α)) (weights : List (String × Nat)) :
    List α :=
  (weights.map (fun p => (List.replicate p.2 (lookupIterable iterables p.1)).flatten)).flatten

/-! ### Weighted mixer (`WeightedMixer`) -/

/-- The mutable state of a `WeightedMixer`, with sources addressed
positionally: `iterators` holds the remaining items of each source's current
iterator and `counts` the per-source reset counts (`self._counts`). -/
structure WMState (α : Type) where
  iterators : List (List α)
  counts : List Nat
deriving DecidableEq, Repr

/-- `WeightedMixer.__init__`: `_reset_iter` is run once per source, creating a
fresh iterator and setting each count to `1`. -/
def wmInit (sources : List (List α)) : WMState α :=
  ⟨sources, List.replicate sources.length 1⟩

/-- One draw (`next(iterator)`) from source `i`: on `StopIteration` the source
is reset (`_reset_iter`: fresh iterator, count incremented) and one item is
drawn from the fresh iterator; `none` models the uncaught second
`StopIteration` of an empty source. -/
def wmNext (sources : List (List α)) (st : WMState α) (i : Nat) :
    Option α × WMState α :=
  match st.iterators.getD i [] with
  | x :: rest => (some x, ⟨st.iterators.set i rest, st.counts⟩)
  | [] =>
      match sources.getD i [] with
      | x :: rest =>
          (some x, ⟨st.iterators.set i rest, st.counts.set i (st.counts.getD i 0 + 1)⟩)
      | [] =>
          (none, ⟨st.iterators.set i [], st.counts.set i (st.counts.getD i 0 + 1)⟩)

/-- `n` draws of `WeightedMixer.__iter__`: the `cycle(self._iter_datasets())`
schedule is a nonempty list of source indices cycled from position `pos`. -/
def wmRun (sources : List (List α)) (sched : List Nat) :
    Nat → Nat → WMState α → List (Option α) × WMState α
  | 0, _, st => ([], st)
  | n + 1, pos, st =>
      let i := sched.getD (pos % sched.length) 0
      let d := wmNext sources st i
      let r := wmRun sources sched n (pos + 1) d.2
      (d.1 :: r.1, r.2)

/-- Python `min` over the source lengths ("the length of the shortest
source"). -/
def shortestLen (sources : List (List α)) : Nat :=
  match sources.map List.length with
  | [] => 0
  | x :: xs => xs.foldl min x

/-! ### Device relay (`OnDeviceDatasetIter`) -/

/-- A tensor: its device and payload. -/
structure Tensor where
  device : Int
  data : List Int
deriving DecidableEq, Repr

/-- A field value of a tensor batch: a single tensor or a list of tensors. -/
inductive BatchVal where
  | single (t : Tensor)
  | tlist (ts : List Tensor)
deriving DecidableEq, Repr

/-- `t.to(device)`. -/
def tensorTo (d : Int) (t : Tensor) : Tensor := ⟨d, t.data⟩

/-- The four metadata keys excluded from the relay in
`OnDeviceDatasetIter.__iter__`. -/
def excludedKeys : List String := ["cid", "ind_in_bucket", "cid_line_number", "left_pad"]

/-- Relay one field value: list-valued fields element-wise, others whole. -/
def relayVal (d : Int) : BatchVal → BatchVal
  | .single t => .single (tensorTo d t)
  | .tlist ts => .tlist (ts.map (tensorTo d))

/-- The per-batch body of `OnDeviceDatasetIter.__iter__`: every field whose
key is not excluded is moved to the target device, in place. -/
def onDeviceRelay (d : Int) (tensor_batch : List (String × BatchVal)) :
    List (String × BatchVal) :=
  tensor_batch.map (fun p => if p.1 ∈ excludedKeys then p else (p.1, relayVal d p.2))

/-- Does every tensor of the value report device `d`? -/
def valOnDevice (d : Int) : BatchVal → Bool
  | .single t => t.device == d
  | .tlist ts => ts.all (fun t => t.device == d)

/-- The payloads of a field value, device forgotten. -/
def valData : BatchVal → List (List Int)
  | .single t => [t.data]
  | .tlist ts => ts.map Tensor.data

/-! ### Effective `left_pad` flag (`DynamicDatasetIter.__init__`, lines 170-174) -/

/-- The assignment of `self.left_pad` in `DynamicDatasetIter.__init__`:
`True` iff the task is not training and the configured `left_pad` is set. -/
def effectiveLeftPad (task : CorpusTask) (left_pad : Bool) : Bool :=
  if task ≠ CorpusTask.TRAIN ∧ left_pad = true then true else false

/-- The spec's deduplication scenario: source lines `["a", "a", "b"]` as
indexed examples. -/
def dedupData : List (Ex × Nat) :=
  [(⟨"a", [0], none⟩, 0), (⟨"a", [0], none⟩, 1), (⟨"b", [0], none⟩, 2)]

/-- The state invariant of the `batch_iter` loop for `batch_type = tokens`:
`maxlen` is the max of `max_src_tgt` over the in-progress minibatch,
`size_so_far` is `nbsents * maxlen`, and the state is either strictly under
budget or holds at most `batch_size_multiple` examples (the warning-path /
carried-over states). -/
def BatchInv (batch_size batch_size_multiple : Nat) (st : BatchState) : Prop :=
  st.maxlen = listMax (st.minibatch.map exMaxLen) ∧
  st.size_so_far = st.minibatch.length * st.maxlen ∧
  (st.size_so_far < batch_size ∨ st.minibatch.length ≤ batch_size_multiple)

/-! ## Helper lemmas -/

theorem tuple_to_json_nil (tf : α → Option β) : tuple_to_json_with_tokIDs tf [] = [] := rfl

theorem tuple_to_json_cons (tf : α → Option β) (x : α) (l : List α) :
    tuple_to_json_with_tokIDs tf (x :: l) =
      match tf x with
      | some e => e :: tuple_to_json_with_tokIDs tf l
      | none => tuple_to_json_with_tokIDs tf l := rfl

theorem tuple_to_json_length_le (tf : α → Option β) (bucket : List α) :
    (tuple_to_json_with_tokIDs tf bucket).length ≤ bucket.length := by
  induction bucket with
  | nil => simp [tuple_to_json_nil]
  | cons x l ih =>
      rw [tuple_to_json_cons]
      cases tf x with
      | some e => simp only [List.length_cons]; exact Nat.succ_le_succ ih
      | none => simp only [List.length_cons]; exact Nat.le_succ_of_le ih

theorem bucketTargetSeq_const (bs inc : Nat) (init : Int) (n : Nat)
    (h : bucketTargetSeq bs inc init n = bs) :
    bucketTargetSeq bs inc init (n + 1) = bs := by
  simp only [bucketTargetSeq, nextBucketSize, h]
  simp

theorem bucketTargetSeq_eventually_const (bs inc : Nat) (init : Int) (n : Nat)
    (h : bs ≤ bucketTargetSeq bs inc init n) :
    ∀ k, n < k → bucketTargetSeq bs inc init k = bs := by
  have hstep : bucketTargetSeq bs inc init (n + 1) = bs := by
    simp only [bucketTargetSeq, nextBucketSize]
    rw [if_neg (by omega)]
  intro k hk
  induction k with
  | zero => omega
  | succ k ih =>
      rcases Nat.lt_succ_iff_lt_or_eq.mp hk with h' | h'
      · exact bucketTargetSeq_const bs inc init k (ih h')
      · subst h'; exact hstep

/-! ## Claim theorems -/

/-- C3: in the bucketing engine, if `bucket_size_init > 0` the first bucket's
target size is `bucket_size_init`; after each flush, a target below
`bucket_size` grows by `bucket_size_increment`, and once the target reaches or
exceeds `bucket_size` every subsequent target is exactly `bucket_size`; in
particular for `bucket_size_init = 4, bucket_size = 16,
bucket_size_increment = 4` the flushed bucket target sizes are
`4, 8, 12, 16, 16, 16` (realized as the sizes of the buckets flushed by
`_bucketing` over a 72-example stream with a non-rejecting transform). -/
theorem claim_C3_bucket_ramp :
    (∀ (bs inc : Nat) (init : Int), 0 < init →
        bucketTargetSeq bs inc init 0 = init.toNat) ∧
    (∀ (bs inc : Nat) (init : Int) (n : Nat),
        bucketTargetSeq bs inc init n < bs →
        bucketTargetSeq bs inc init (n + 1) = bucketTargetSeq bs inc init n + inc) ∧
    (∀ (bs inc : Nat) (init : Int) (n k : Nat),
        bs ≤ bucketTargetSeq bs inc init n → n < k →
        bucketTargetSeq bs inc init k = bs) ∧
    (List.range 6).map (bucketTargetSeq 16 4 4) = [4, 8, 12, 16, 16, 16] ∧
    (bucketing (fun (x : Nat) => some x) 16 4 4 (List.range 72)).map
        (fun p => (p.1.length, p.2)) =
      [(4, 0), (8, 1), (12, 2), (16, 3), (16, 4), (16, 5)] := by
  refine ⟨?_, ?_, ?_, ?_, ?_⟩
  · intro bs inc init h
    simp [bucketTargetSeq, initialBucketSize, h]
  · intro bs inc init n h
    simp only [bucketTargetSeq, nextBucketSize]
    rw [if_pos h]
  · intro bs inc init n k hn hk
    exact bucketTargetSeq_eventually_const bs inc init n hn k hk
  · rfl
  · rfl

/-- C3 witness: the ramp facts applied at `bucket_size_init = 4,
bucket_size = 16, bucket_size_increment = 4`. -/
theorem claim_C3_bucket_ramp_witness :
    (0 : Int) < 4 ∧ bucketTargetSeq 16 4 4 1 < 16 ∧ 16 ≤ bucketTargetSeq 16 4 4 3 ∧ 3 < 5 ∧
      bucketTargetSeq 16 4 4 0 = (4 : Int).toNat ∧
      bucketTargetSeq 16 4 4 2 = bucketTargetSeq 16 4 4 1 + 4 ∧
      bucketTargetSeq 16 4 4 5 = 16 :=
  ⟨by decide, by decide, by decide, by decide,
    claim_C3_bucket_ramp.1 16 4 4 (by decide),
    claim_C3_bucket_ramp.2.1 16 4 4 1 (by decide),
    claim_C3_bucket_ramp.2.2.1 16 4 4 3 5 (by decide) (by decide)⟩

/-- C9: the effective `left_pad` flag stored by `DynamicDatasetIter.__init__`
is set only when the task is outside training, or when the model is explicitly
configured for left padding (the code in fact requires both conditions at
once, which implies this disjunctive necessary condition). -/
theorem claim_C9_left_pad (task : CorpusTask) (left_pad : Bool)
    (h : effectiveLeftPad task left_pad = true) :
    task ≠ CorpusTask.TRAIN ∨ left_pad = true := by
  unfold effectiveLeftPad at h
  split_ifs at h with hc
  exact Or.inl hc.1

/-- C9 witness: inference task with configured left padding. -/
theorem claim_C9_left_pad_witness :
    effectiveLeftPad CorpusTask.INFER true = true ∧
      (CorpusTask.INFER ≠ CorpusTask.TRAIN ∨ true = true) :=
  ⟨by decide, claim_C9_left_pad CorpusTask.INFER true (by decide)⟩

/-- C10: the numericalized bucket flushed by the bucketing engine contains at
most as many examples as were accumulated: the transform/score-threshold
filtering and numericalization of `_tuple_to_json_with_tokIDs` only remove
examples, never add any, and every bucket yielded by `_bucketing` is the
filtered image of its accumulated run; concretely, with a transform rejecting
everything and `bucket_size_init = 2`, two raw accumulations of 2 examples
each yield two empty buckets. -/
theorem claim_C10_bucket_filter_only_removes :
    (∀ (α β : Type) (tf : α → Option β) (bucket : List α),
        (tuple_to_json_with_tokIDs tf bucket).length ≤ bucket.length) ∧
    (∀ (α β : Type) (tf : α → Option β) (bs inc : Nat) (stream bucket : List α)
        (idx cur : Nat) (b : List β) (i : Nat),
        (b, i) ∈ bucketingLoop tf bs inc stream bucket idx cur →
        ∃ raw : List α, b = tuple_to_json_with_tokIDs tf raw ∧ b.length ≤ raw.length) ∧
    bucketing (fun (_ : Nat) => (none : Option Nat)) 16 2 0 (List.range 4) =
      [([], 0), ([], 1)] := by
  refine ⟨fun α β => tuple_to_json_length_le, ?_, rfl⟩
  intro α β tf bs inc stream
  induction stream with
  | nil =>
      intro bucket idx cur b i hmem
      simp only [bucketingLoop] at hmem
      split at hmem
      · simp at hmem
      · simp at hmem
        exact ⟨bucket, hmem.1, by rw [hmem.1]; exact tuple_to_json_length_le tf bucket⟩
  | cons x rest ih =>
      intro bucket idx cur b i hmem
      simp only [bucketingLoop] at hmem
      split at hmem
      · rcases List.mem_cons.mp hmem with h | h
        · have hb : b = tuple_to_json_with_tokIDs tf (bucket ++ [x]) := by
            simpa using congrArg Prod.fst h
          exact ⟨bucket ++ [x], hb, hb ▸ tuple_to_json_length_le tf (bucket ++ [x])⟩
        · exact ih [] (idx + 1) (nextBucketSize bs inc cur) b i h
      · exact ih (bucket ++ [x]) idx cur b i hmem

/-- C10 witness: the length bound applied to a concrete rejected bucket, and
the membership form applied to the first bucket of a concrete run. -/
theorem claim_C10_bucket_filter_only_removes_witness :
    ((([] : List Nat), 0) ∈
        bucketingLoop (fun (_ : Nat) => (none : Option Nat)) 16 2 (List.range 4) [] 0 2) ∧
      ∃ raw : List Nat,
        ([] : List Nat) = tuple_to_json_with_tokIDs (fun _ => (none : Option Nat)) raw ∧
          ([] : List Nat).length ≤ raw.length :=
  ⟨by decide,
    claim_C10_bucket_filter_only_removes.2.1 Nat Nat (fun _ => none) 16 2 (List.range 4) [] 0 2
      [] 0 (by decide)⟩

theorem flatMap_replicate (n : Nat) (a : α) (f : α → List β) :
    (List.replicate n a).flatMap f = (List.replicate n (f a)).flatten := by
  induction n with
  | zero => rfl
  | succ n ih => simp [List.replicate_succ, ih]

/-- C6: a `SequentialMixer` emits exactly the concatenation, in declared name
order with each source's position repeated `weight` times, of each source's
full contents; the iteration is a finite list, so it terminates when the
sources do. -/
theorem claim_C6_sequential_mixer (α : Type) (iterables : List (String × List α))
    (weights : List (String × Nat)) :
    sequentialMixer iterables weights = sequentialMixerSpec iterables weights := by
  induction weights with
  | nil => rfl
  | cons w ws ih =>
      simp only [sequentialMixer, sequentialMixerSpec, iter_datasets, List.flatMap_cons,
        List.map_cons, List.flatten_cons, List.flatMap_append] at ih ⊢
      rw [flatMap_replicate, ih]

theorem keySetEq_iff (ks₁ ks₂ : List String) :
    keySetEq ks₁ ks₂ = true ↔ ∀ k, k ∈ ks₁ ↔ k ∈ ks₂ := by
  simp only [keySetEq, Bool.and_eq_true, List.all_eq_true]
  constructor
  · rintro ⟨h₁, h₂⟩ k
    exact ⟨fun hk => List.elem_iff.mp (h₁ k hk), fun hk => List.elem_iff.mp (h₂ k hk)⟩
  · intro h
    exact ⟨fun k hk => List.elem_iff.mpr ((h k).1 hk),
      fun k hk => List.elem_iff.mpr ((h k).2 hk)⟩

/-- C7: constructing a mixing strategy (the shared `MixingStrategy.__init__`
run by both `SequentialMixer` and `WeightedMixer`) succeeds exactly when the
key set of the iterable-source mapping and the key set of the weight mapping
are identical, and fails with a configuration error otherwise. -/
theorem claim_C7_key_set_validation (α : Type) (iterables : List (String × List α))
    (weights : List (String × Nat)) :
    (∃ s, mkMixingStrategy iterables weights = Except.ok s) ↔
      ∀ k, k ∈ keysOf iterables ↔ k ∈ keysOf weights := by
  rw [← keySetEq_iff]
  unfold mkMixingStrategy
  split_ifs with h
  · simp [h]
  · simp [h]

/-- C8: the device relay of `OnDeviceDatasetIter.__iter__` leaves the four
metadata fields `cid`, `ind_in_bucket`, `cid_line_number`, `left_pad`
unchanged, and moves every other field to the target device (list-valued
fields element-wise, others as a whole) preserving its payload; concretely,
for a batch with keys `src_ids`, `cid`, `tgt_ids`, after relay `cid` is
untouched while `src_ids` and `tgt_ids` report the target device. -/
theorem claim_C8_device_relay :
    (∀ (d : Int) (batch : List (String × BatchVal)) (k : String) (v : BatchVal),
        k ∈ excludedKeys → ((k, v) ∈ onDeviceRelay d batch ↔ (k, v) ∈ batch)) ∧
    (∀ (d : Int) (batch : List (String × BatchVal)) (k : String) (v : BatchVal),
        (k, v) ∈ batch → k ∉ excludedKeys →
          (k, relayVal d v) ∈ onDeviceRelay d batch ∧
            valOnDevice d (relayVal d v) = true ∧ valData (relayVal d v) = valData v) ∧
    onDeviceRelay 1 [("src_ids", .single ⟨0, [1, 2]⟩), ("cid", .single ⟨0, [7]⟩),
        ("tgt_ids", .tlist [⟨0, [3]⟩])] =
      [("src_ids", .single ⟨1, [1, 2]⟩), ("cid", .single ⟨0, [7]⟩),
        ("tgt_ids", .tlist [⟨1, [3]⟩])] := by
  refine ⟨?_, ?_, rfl⟩
  · intro d batch k v hk
    constructor
    · intro hm
      rcases List.mem_map.mp hm with ⟨p, hp, hfp⟩
      by_cases hpk : p.1 ∈ excludedKeys
      · rw [if_pos hpk] at hfp
        exact hfp ▸ hp
      · rw [if_neg hpk] at hfp
        have : p.1 = k := congrArg Prod.fst hfp
        exact absurd (this ▸ hpk) (by simp [hk])
    · intro hm
      refine List.mem_map.mpr ⟨(k, v), hm, ?_⟩
      rw [if_pos hk]
  · intro d batch k v hm hk
    refine ⟨List.mem_map.mpr ⟨(k, v), hm, by rw [if_neg hk]⟩, ?_, ?_⟩
    · cases v with
      | single t => simp [relayVal, tensorTo, valOnDevice]
      | tlist ts => simp [relayVal, tensorTo, valOnDevice, List.all_eq_true]
    · cases v with
      | single t => rfl
      | tlist ts => simp [relayVal, tensorTo, valData, List.map_map, Function.comp]

/-- C8 witness: both general parts applied to a concrete batch: the excluded
key `cid` passes through, the non-excluded key `src_ids` is moved to
device 1. -/
theorem claim_C8_device_relay_witness :
    ("cid" ∈ excludedKeys ∧
      ((("cid", BatchVal.single ⟨0, [7]⟩) ∈
          onDeviceRelay 1 [("cid", BatchVal.single ⟨0, [7]⟩)]) ↔
        (("cid", BatchVal.single ⟨0, [7]⟩) ∈ [("cid", BatchVal.single ⟨0, [7]⟩)]))) ∧
      (("src_ids", BatchVal.single ⟨0, [1, 2]⟩) ∈ [("src_ids", BatchVal.single ⟨0, [1, 2]⟩)] ∧
        "src_ids" ∉ excludedKeys ∧
        (("src_ids", relayVal 1 (BatchVal.single ⟨0, [1, 2]⟩)) ∈
            onDeviceRelay 1 [("src_ids", BatchVal.single ⟨0, [1, 2]⟩)] ∧
          valOnDevice 1 (relayVal 1 (BatchVal.single ⟨0, [1, 2]⟩)) = true ∧
          valData (relayVal 1 (BatchVal.single ⟨0, [1, 2]⟩)) =
            valData (BatchVal.single ⟨0, [1, 2]⟩))) :=
  ⟨⟨by decide,
      claim_C8_device_relay.1 1 [("cid", BatchVal.single ⟨0, [7]⟩)] "cid"
        (BatchVal.single ⟨0, [7]⟩) (by decide)⟩,
    by decide, by decide,
    claim_C8_device_relay.2.1 1 [("src_ids", BatchVal.single ⟨0, [1, 2]⟩)] "src_ids"
      (BatchVal.single ⟨0, [1, 2]⟩) (by decide) (by decide)⟩


/-! ## Batch assembler and weighted-mixer lemmas -/

theorem listMax_cons (a : Nat) (l : List Nat) : listMax (a :: l) = max a (listMax l) := rfl

theorem listMax_append (l : List Nat) (x : Nat) :
    listMax (l ++ [x]) = max (listMax l) x := by
  induction l with
  | nil => simp [listMax]
  | cons a l ih =>
      rw [List.cons_append, listMax_cons, ih, listMax_cons, Nat.max_assoc]

theorem listMax_take_le (l : List Nat) (n : Nat) : listMax (l.take n) ≤ listMax l := by
  induction l generalizing n with
  | nil => simp [List.take_nil]
  | cons a l ih =>
      cases n with
      | zero => exact Nat.zero_le _
      | succ n =>
          rw [List.take_succ_cons, listMax_cons, listMax_cons]
          exact max_le_max (Nat.le_refl a) (ih n)

theorem batchInv_mk (bs m : Nat) (mb : List (Ex × Nat)) (ml sz : Nat) (seen : List String)
    (h1 : ml = listMax (mb.map exMaxLen)) (h2 : sz = mb.length * ml)
    (h3 : sz < bs ∨ mb.length ≤ m) : BatchInv bs m ⟨mb, ml, sz, seen⟩ :=
  ⟨h1, h2, h3⟩

theorem batchIterStep_tokens_inv (task : CorpusTask) (batch_size m : Nat)
    (hbs : 0 < batch_size) (hm : 1 ≤ m) (st : BatchState)
    (hst : BatchInv batch_size m st) (exi : Ex × Nat) :
    BatchInv batch_size m (batchIterStep task .tokens batch_size m st exi).1 ∧
      ∀ B, (batchIterStep task .tokens batch_size m st exi).2 = some B →
        B.length * listMax (B.map exMaxLen) ≤ batch_size ∨ B.length = m := by
  obtain ⟨hA, hB, hC⟩ := hst
  have hn : (st.minibatch ++ [exi]).length = st.minibatch.length + 1 := by simp
  have hmax : listMax ((st.minibatch ++ [exi]).map exMaxLen)
      = max (max_src_tgt exi.1) st.maxlen := by
    rw [List.map_append, List.map_singleton, listMax_append, hA, Nat.max_comm]
    rfl
  have hr1le := Nat.mod_le ((st.minibatch ++ [exi]).length - 1) m
  have hr1lt := Nat.mod_lt ((st.minibatch ++ [exi]).length - 1) (y := m) (by omega)
  have hr0le := Nat.mod_le ((st.minibatch ++ [exi]).length) m
  have hr0lt := Nat.mod_lt ((st.minibatch ++ [exi]).length) (y := m) (by omega)
  simp only [batchIterStep, batch_size_fn] at *
  split_ifs
  all_goals dsimp only
  -- 1: deduplication skip
  · exact ⟨⟨hA, hB, hC⟩, fun B hB => hB.elim⟩
  -- 2: m > 1, strictly over budget, overflowed = 0 (impossible)
  · rename_i hov
    exact absurd hov (by omega)
  -- 3: m > 1, strictly over budget, warning path
  · rename_i hm2 ho1 hov0 hovn
    refine ⟨batchInv_mk _ _ _ _ _ _ hmax.symm rfl (Or.inr ?_), fun B hB => hB.elim⟩
    omega
  -- 4: m > 1, strictly over budget, carry path
  · rename_i hm2 ho1 hov0 hovn
    refine ⟨batchInv_mk _ _ _ _ _ _ rfl rfl (Or.inr ?_), ?_⟩
    · rw [List.length_drop]
      omega
    · intro B hB
      simp only [Option.some.injEq] at hB
      subst hB
      rcases hC with hside | hside
      · left
        rw [List.take_append_of_le_length (by omega)]
        have h1 : (st.minibatch.take
            ((st.minibatch ++ [exi]).length -
              (1 + ((st.minibatch ++ [exi]).length - 1) % m))).length
            ≤ st.minibatch.length := by
          rw [List.length_take]
          omega
        have h2 : listMax ((st.minibatch.take
            ((st.minibatch ++ [exi]).length -
              (1 + ((st.minibatch ++ [exi]).length - 1) % m))).map exMaxLen)
            ≤ st.maxlen := by
          rw [List.map_take, hA]
          exact listMax_take_le _ _
        calc _ ≤ st.minibatch.length * st.maxlen := Nat.mul_le_mul h1 h2
          _ = st.size_so_far := hB.symm
          _ ≤ batch_size := Nat.le_of_lt hside
      · right
        rw [List.length_take, Nat.min_eq_left (by omega)]
        by_cases hxm : (st.minibatch ++ [exi]).length - 1 < m
        · have hx := Nat.mod_eq_of_lt hxm
          omega
        · have hx : (st.minibatch ++ [exi]).length - 1 = m := by omega
          have hmod : ((st.minibatch ++ [exi]).length - 1) % m = 0 := by
            rw [hx]
            exact Nat.mod_self m
          omega
  -- 5: m > 1, exactly at budget, overflowed = 0: emit whole minibatch
  · rename_i hm2 ho1 hov0
    refine ⟨⟨rfl, rfl, Or.inl hbs⟩, fun B hB => ?_⟩
    simp only [Option.some.injEq] at hB
    subst hB
    left
    rw [hmax]
    omega
  -- 6: m > 1, exactly at budget, warning path
  · rename_i hm2 ho1 hov0 hovn
    simp only [Nat.zero_add, Nat.sub_zero] at *
    refine ⟨batchInv_mk _ _ _ _ _ _ hmax.symm rfl (Or.inr ?_), fun B hB => hB.elim⟩
    omega
  -- 7: m > 1, exactly at budget, carry path
  · rename_i hm2 ho1 hov0 hovn
    simp only [Nat.zero_add, Nat.sub_zero] at *
    refine ⟨batchInv_mk _ _ _ _ _ _ rfl rfl (Or.inr ?_), ?_⟩
    · rw [List.length_drop]
      omega
    · intro B hB
      simp only [Option.some.injEq] at hB
      subst hB
      rcases hC with hside | hside
      · left
        rw [List.take_append_of_le_length (by omega)]
        have h1 : (st.minibatch.take
            ((st.minibatch ++ [exi]).length - (st.minibatch ++ [exi]).length % m)).length
            ≤ st.minibatch.length := by
          rw [List.length_take]
          omega
        have h2 : listMax ((st.minibatch.take
            ((st.minibatch ++ [exi]).length - (st.minibatch ++ [exi]).length % m)).map exMaxLen)
            ≤ st.maxlen := by
          rw [List.map_take, hA]
          exact listMax_take_le _ _
        calc _ ≤ st.minibatch.length * st.maxlen := Nat.mul_le_mul h1 h2
          _ = st.size_so_far := hB.symm
          _ ≤ batch_size := Nat.le_of_lt hside
      · right
        rw [List.length_take, Nat.min_eq_left (by omega)]
        by_cases hxm : (st.minibatch ++ [exi]).length < m
        · have hx := Nat.mod_eq_of_lt hxm
          omega
        · rcases Nat.lt_or_ge ((st.minibatch ++ [exi]).length) (m + 1) with h' | h'
          · have hx : (st.minibatch ++ [exi]).length = m := by omega
            have hmod : (st.minibatch ++ [exi]).length % m = 0 := by
              rw [hx]
              exact Nat.mod_self m
            omega
          · have hx : (st.minibatch ++ [exi]).length = m + 1 := by omega
            have hmod : (st.minibatch ++ [exi]).length % m = 1 := by
              rw [hx, Nat.add_mod_left]
              exact Nat.mod_eq_of_lt (by omega)
            omega
  -- 8: m = 1, strictly over budget, overflowed = 0 (condition is False)
  · rename_i hfalse
    exact hfalse.elim
  -- 9: m = 1, strictly over budget, warning path (single example over budget)
  · rename_i hm2 ho1 hnf hovn
    refine ⟨batchInv_mk _ _ _ _ _ _ hmax.symm rfl (Or.inr ?_), fun B hB => hB.elim⟩
    omega
  -- 10: m = 1, strictly over budget, carry path
  · rename_i hm2 ho1 hnf hovn
    refine ⟨batchInv_mk _ _ _ _ _ _ rfl rfl (Or.inr ?_), ?_⟩
    · rw [List.length_drop]
      omega
    · intro B hB
      simp only [Option.some.injEq] at hB
      subst hB
      rcases hC with hside | hside
      · left
        rw [List.take_append_of_le_length (by omega)]
        have h1 : (st.minibatch.take ((st.minibatch ++ [exi]).length - 1)).length
            ≤ st.minibatch.length := by
          rw [List.length_take]
          omega
        have h2 : listMax ((st.minibatch.take ((st.minibatch ++ [exi]).length - 1)).map exMaxLen)
            ≤ st.maxlen := by
          rw [List.map_take, hA]
          exact listMax_take_le _ _
        calc _ ≤ st.minibatch.length * st.maxlen := Nat.mul_le_mul h1 h2
          _ = st.size_so_far := hB.symm
          _ ≤ batch_size := Nat.le_of_lt hside
      · right
        rw [List.length_take, Nat.min_eq_left (by omega)]
        omega
  -- 11: m = 1, exactly at budget, overflowed = 0: emit whole minibatch
  · rename_i hm2 ho1 hz
    refine ⟨⟨rfl, rfl, Or.inl hbs⟩, fun B hB => ?_⟩
    simp only [Option.some.injEq] at hB
    subst hB
    left
    rw [hmax]
    omega
  -- 12: m = 1, exactly at budget, 0 ≠ 0 (impossible)
  · rename_i hnz hovn
    exact absurd rfl hnz
  -- 13: m = 1, exactly at budget, 0 ≠ 0 (impossible)
  · rename_i hnz hovn
    exact absurd rfl hnz
  -- 14: under budget: keep accumulating
  · rename_i htrig
    refine ⟨batchInv_mk _ _ _ _ _ _ hmax.symm rfl (Or.inl ?_), fun B hB => hB.elim⟩
    omega

theorem natSub_mod_self (x m : Nat) : (x - x % m) % m = 0 := by
  have h := Nat.div_add_mod x m
  rw [show x - x % m = m * (x / m) from by omega]
  exact Nat.mul_mod_right m (x / m)

theorem batchIterStep_emit_mod (task : CorpusTask) (bt : BatchType)
    (batch_size m : Nat) (hm : 1 < m) (st : BatchState) (exi : Ex × Nat)
    (B : List (Ex × Nat)) (h : (batchIterStep task bt batch_size m st exi).2 = some B) :
    B.length % m = 0 := by
  have hn : (st.minibatch ++ [exi]).length = st.minibatch.length + 1 := by simp
  have hr1 := Nat.mod_le ((st.minibatch ++ [exi]).length - 1) m
  have hr0 := Nat.mod_le (st.minibatch ++ [exi]).length m
  have hs1 := natSub_mod_self ((st.minibatch ++ [exi]).length - 1) m
  have hs0 := natSub_mod_self (st.minibatch ++ [exi]).length m
  simp only [batchIterStep, if_pos hm] at h
  split_ifs at h
  · rename_i hov
    omega
  · simp only [Option.some.injEq] at h
    subst h
    rw [List.length_take, Nat.min_eq_left (by omega)]
    rw [show (st.minibatch ++ [exi]).length - (1 + ((st.minibatch ++ [exi]).length - 1) % m)
        = (st.minibatch ++ [exi]).length - 1 - ((st.minibatch ++ [exi]).length - 1) % m from by
          omega]
    exact hs1
  · simp only [Option.some.injEq] at h
    subst h
    rename_i hov
    simp only [Nat.zero_add, Nat.sub_zero] at hov
    exact hov
  · simp only [Option.some.injEq] at h
    subst h
    simp only [Nat.zero_add, Nat.sub_zero]
    rw [List.length_take, Nat.min_eq_left (by omega)]
    exact hs0

theorem batchIterLoop_tokens_inv (task : CorpusTask) (batch_size m : Nat)
    (hbs : 0 < batch_size) (hm : 1 ≤ m) :
    ∀ (data : List (Ex × Nat)) (st : BatchState), BatchInv batch_size m st →
      ∀ B ∈ (batchIterLoop task .tokens batch_size m data st).1,
        B.length * listMax (B.map exMaxLen) ≤ batch_size ∨ B.length = m := by
  intro data
  induction data with
  | nil =>
      intro st _ B hB
      simp [batchIterLoop] at hB
  | cons x rest ih =>
      intro st hst B hB
      obtain ⟨hinv, hemit⟩ := batchIterStep_tokens_inv task batch_size m hbs hm st hst x
      simp only [batchIterLoop] at hB
      cases hs : (batchIterStep task .tokens batch_size m st x).2 with
      | none =>
          simp only [hs] at hB
          exact ih _ hinv B hB
      | some b =>
          simp only [hs] at hB
          rcases List.mem_cons.mp hB with rfl | hB'
          · exact hemit B hs
          · exact ih _ hinv B hB'

theorem batchIterLoop_emit_mod (task : CorpusTask) (bt : BatchType)
    (batch_size m : Nat) (hm : 1 < m) :
    ∀ (data : List (Ex × Nat)) (st : BatchState) (B : List (Ex × Nat)),
      B ∈ (batchIterLoop task bt batch_size m data st).1 → B.length % m = 0 := by
  intro data
  induction data with
  | nil =>
      intro st B hB
      simp [batchIterLoop] at hB
  | cons x rest ih =>
      intro st B hB
      simp only [batchIterLoop] at hB
      cases hs : (batchIterStep task bt batch_size m st x).2 with
      | none =>
          simp only [hs] at hB
          exact ih _ B hB
      | some b =>
          simp only [hs] at hB
          rcases List.mem_cons.mp hB with rfl | hB'
          · exact batchIterStep_emit_mod task bt batch_size m hm st x B hs
          · exact ih _ B hB'

theorem batchIterStep_content (task : CorpusTask) (bt : BatchType) (bs m : Nat)
    (st : BatchState) (exi : Ex × Nat) (hT : task ≠ CorpusTask.TRAIN) :
    ((batchIterStep task bt bs m st exi).2.getD []) ++
        (batchIterStep task bt bs m st exi).1.minibatch
      = st.minibatch ++ [exi] := by
  simp only [batchIterStep]
  split_ifs with h
  · exact absurd h.2 hT
  all_goals simp [initBatchState, List.take_append_drop]

theorem batchIterStep_seen_cleared (task : CorpusTask) (bt : BatchType) (bs m : Nat)
    (st : BatchState) (exi : Ex × Nat) (B : List (Ex × Nat))
    (h : (batchIterStep task bt bs m st exi).2 = some B) :
    (batchIterStep task bt bs m st exi).1.seen = [] := by
  simp only [batchIterStep] at h ⊢
  split_ifs at h ⊢
  all_goals rfl

theorem batchIterLoop_flatten (task : CorpusTask) (bt : BatchType) (bs m : Nat)
    (hT : task ≠ CorpusTask.TRAIN) :
    ∀ (data : List (Ex × Nat)) (st : BatchState),
      (batchIterLoop task bt bs m data st).1.flatten ++
          (batchIterLoop task bt bs m data st).2.minibatch
        = st.minibatch ++ data := by
  intro data
  induction data with
  | nil =>
      intro st
      simp [batchIterLoop]
  | cons x rest ih =>
      intro st
      have hc := batchIterStep_content task bt bs m st x hT
      simp only [batchIterLoop]
      cases hs : (batchIterStep task bt bs m st x).2 with
      | none =>
          simp only [hs, Option.getD_none, List.nil_append] at hc ⊢
          rw [ih, hc]
          simp
      | some b =>
          simp only [hs, Option.getD_some] at hc ⊢
          rw [List.flatten_cons, List.append_assoc, ih, ← List.append_assoc, hc]
          simp

theorem batch_iter_flatten (task : CorpusTask) (bt : BatchType) (bs m : Nat)
    (data : List (Ex × Nat)) (hT : task ≠ CorpusTask.TRAIN) :
    (batch_iter task bt bs m data).flatten = data := by
  have h := batchIterLoop_flatten task bt bs m hT data initBatchState
  rw [show initBatchState.minibatch = [] from rfl, List.nil_append] at h
  by_cases he : (batchIterLoop task bt bs m data initBatchState).2.minibatch = []
  · rw [he, List.append_nil] at h
    simp [batch_iter, he]
    exact h
  · have hne : (batchIterLoop task bt bs m data initBatchState).2.minibatch.isEmpty = false := by
      simpa [List.isEmpty_iff] using he
    simp [batch_iter, hne]
    exact h

/-- C1: for `batch_type = tokens`, every minibatch yielded inside the
`batch_iter` loop (that is, every one except the final partial minibatch
flushed at stream end) either respects the token budget
`len(minibatch) * maxlen(minibatch) ≤ batch_size`, or is a warning-path
minibatch of exactly `batch_size_multiple` examples, which the multiple-of
constraint prevents from being made any smaller. -/
theorem claim_C1_token_budget (task : CorpusTask) (batch_size m : Nat)
    (hbs : 0 < batch_size) (hm : 1 ≤ m) (data : List (Ex × Nat)) (B : List (Ex × Nat))
    (hB : B ∈ (batchIterLoop task .tokens batch_size m data initBatchState).1) :
    B.length * listMax (B.map exMaxLen) ≤ batch_size ∨ B.length = m :=
  batchIterLoop_tokens_inv task batch_size m hbs hm data initBatchState
    ⟨rfl, rfl, Or.inl hbs⟩ B hB

/-- C1 witness: a two-example bucket batched with `batch_size = 4` tokens. -/
theorem claim_C1_token_budget_witness :
    0 < 4 ∧ 1 ≤ 1 ∧
      [((⟨"x", [0, 1], none⟩ : Ex), 0), (⟨"y", [0, 1], none⟩, 1)] ∈
        (batchIterLoop CorpusTask.INFER .tokens 4 1
          [((⟨"x", [0, 1], none⟩ : Ex), 0), (⟨"y", [0, 1], none⟩, 1)] initBatchState).1 ∧
      ([((⟨"x", [0, 1], none⟩ : Ex), 0), (⟨"y", [0, 1], none⟩, 1)].length *
          listMax ([((⟨"x", [0, 1], none⟩ : Ex), 0), (⟨"y", [0, 1], none⟩, 1)].map exMaxLen)
          ≤ 4 ∨
        [((⟨"x", [0, 1], none⟩ : Ex), 0), (⟨"y", [0, 1], none⟩, 1)].length = 1) :=
  ⟨by decide, by decide, by decide,
    claim_C1_token_budget CorpusTask.INFER 4 1 (by decide) (by decide)
      [((⟨"x", [0, 1], none⟩ : Ex), 0), (⟨"y", [0, 1], none⟩, 1)]
      [((⟨"x", [0, 1], none⟩ : Ex), 0), (⟨"y", [0, 1], none⟩, 1)] (by decide)⟩

/-- C2: under `batch_size_multiple = m > 1`, every minibatch yielded inside
the `batch_iter` loop (every one except possibly the final partial minibatch
flushed when the input stream is exhausted) has a number of examples
divisible by `m`. -/
theorem claim_C2_batch_size_multiple (task : CorpusTask) (bt : BatchType)
    (batch_size m : Nat) (hm : 1 < m) (data : List (Ex × Nat)) (B : List (Ex × Nat))
    (hB : B ∈ (batchIterLoop task bt batch_size m data initBatchState).1) :
    B.length % m = 0 :=
  batchIterLoop_emit_mod task bt batch_size m hm data initBatchState B hB

/-- C2 witness: a two-example minibatch under `batch_size_multiple = 2`. -/
theorem claim_C2_batch_size_multiple_witness :
    1 < 2 ∧
      [((⟨"a", [0], none⟩ : Ex), 0), (⟨"b", [0], none⟩, 1)] ∈
        (batchIterLoop CorpusTask.INFER .sents 2 2
          [((⟨"a", [0], none⟩ : Ex), 0), (⟨"b", [0], none⟩, 1)] initBatchState).1 ∧
      [((⟨"a", [0], none⟩ : Ex), 0), (⟨"b", [0], none⟩, 1)].length % 2 = 0 :=
  ⟨by decide, by decide,
    claim_C2_batch_size_multiple CorpusTask.INFER .sents 2 2 (by decide)
      [((⟨"a", [0], none⟩ : Ex), 0), (⟨"b", [0], none⟩, 1)]
      [((⟨"a", [0], none⟩ : Ex), 0), (⟨"b", [0], none⟩, 1)] (by decide)⟩

/-- C4: in `batch_iter`, during training an example whose raw source text is
already in the deduplication set is dropped (the state is unchanged and
nothing is yielded); the deduplication set is cleared at every minibatch
boundary (whenever a minibatch is yielded the successor state's `seen` set is
empty); outside training every example is kept, so the concatenation of all
yielded minibatches is exactly the input; and on source lines
`["a", "a", "b"]` with `batch_size = 10, batch_type = sents,
batch_size_multiple = 1`, training yields the single minibatch
`["a", "b"]` while non-training yields all three examples. -/
theorem claim_C4_dedup :
    (∀ (bt : BatchType) (bs m : Nat) (st : BatchState) (ex : Ex) (ind : Nat),
        ex.src ∈ st.seen →
        batchIterStep CorpusTask.TRAIN bt bs m st (ex, ind) = (st, none)) ∧
    (∀ (task : CorpusTask) (bt : BatchType) (bs m : Nat) (st : BatchState)
        (exi : Ex × Nat) (B : List (Ex × Nat)),
        (batchIterStep task bt bs m st exi).2 = some B →
        (batchIterStep task bt bs m st exi).1.seen = []) ∧
    (∀ (task : CorpusTask) (bt : BatchType) (bs m : Nat) (data : List (Ex × Nat)),
        task ≠ CorpusTask.TRAIN → (batch_iter task bt bs m data).flatten = data) ∧
    (batch_iter CorpusTask.TRAIN .sents 10 1 dedupData).map
        (fun b => b.map (fun p => p.1.src)) = [["a", "b"]] ∧
    (batch_iter CorpusTask.INFER .sents 10 1 dedupData).map
        (fun b => b.map (fun p => p.1.src)) = [["a", "a", "b"]] := by
  refine ⟨?_, ?_, ?_, by decide, by decide⟩
  · intro bt bs m st ex ind h
    simp [batchIterStep, h]
  · exact fun task bt bs m st exi B h => batchIterStep_seen_cleared task bt bs m st exi B h
  · exact fun task bt bs m data hT => batch_iter_flatten task bt bs m data hT

/-- C4 witness: the drop rule, the clearing rule and the non-training
preservation applied to concrete inputs. -/
theorem claim_C4_dedup_witness :
    ((⟨"a", [0], none⟩ : Ex).src ∈ ["a"] ∧
        batchIterStep CorpusTask.TRAIN .sents 10 1 ⟨[], 0, 0, ["a"]⟩ (⟨"a", [0], none⟩, 1) =
          (⟨[], 0, 0, ["a"]⟩, none)) ∧
      ((batchIterStep CorpusTask.INFER .sents 1 1 initBatchState (⟨"a", [0], none⟩, 0)).2 =
          some [((⟨"a", [0], none⟩ : Ex), 0)] ∧
        (batchIterStep CorpusTask.INFER .sents 1 1 initBatchState (⟨"a", [0], none⟩, 0)).1.seen
          = []) ∧
      (CorpusTask.INFER ≠ CorpusTask.TRAIN ∧
        (batch_iter CorpusTask.INFER .sents 10 1 dedupData).flatten = dedupData) :=
  ⟨⟨by decide, claim_C4_dedup.1 .sents 10 1 ⟨[], 0, 0, ["a"]⟩ ⟨"a", [0], none⟩ 1 (by decide)⟩,
    ⟨by decide,
      claim_C4_dedup.2.1 CorpusTask.INFER .sents 1 1 initBatchState (⟨"a", [0], none⟩, 0)
        [((⟨"a", [0], none⟩ : Ex), 0)] (by decide)⟩,
    ⟨by decide,
      claim_C4_dedup.2.2.1 CorpusTask.INFER .sents 10 1 dedupData (by decide)⟩⟩

theorem getD_set_nondecreasing (cs : List Nat) (i j v : Nat)
    (hv : cs.getD i 0 ≤ v) : cs.getD j 0 ≤ (cs.set i v).getD j 0 := by
  induction cs generalizing i j with
  | nil => simp
  | cons c cs ih =>
      cases i with
      | zero =>
          cases j with
          | zero => simpa using hv
          | succ j => simp
      | succ i =>
          cases j with
          | zero => simp
          | succ j => simpa using ih i j (by simpa using hv)

theorem wmNext_counts_le (sources : List (List α)) (st : WMState α) (i j : Nat) :
    st.counts.getD j 0 ≤ (wmNext sources st i).2.counts.getD j 0 := by
  unfold wmNext
  split
  · exact Nat.le_refl _
  · split
    · exact getD_set_nondecreasing _ _ _ _ (Nat.le_succ _)
    · exact getD_set_nondecreasing _ _ _ _ (Nat.le_succ _)

theorem wmNext_fst_isSome (sources : List (List α)) (st : WMState α) (i : Nat)
    (hne : sources.getD i [] ≠ []) : (wmNext sources st i).1.isSome = true := by
  unfold wmNext
  split
  · rfl
  · split
    · rfl
    · rename_i heq
      exact absurd heq hne

theorem wmRun_all_isSome (sources : List (List α)) (sched : List Nat)
    (hsched : sched ≠ []) (hsrc : ∀ i ∈ sched, sources.getD i [] ≠ []) :
    ∀ (n pos : Nat) (st : WMState α), ∀ o ∈ (wmRun sources sched n pos st).1,
      o.isSome = true := by
  intro n
  induction n with
  | zero =>
      intro pos st o ho
      simp [wmRun] at ho
  | succ n ih =>
      intro pos st o ho
      simp only [wmRun] at ho
      rcases List.mem_cons.mp ho with rfl | ho'
      · apply wmNext_fst_isSome
        apply hsrc
        have hlt : pos % sched.length < sched.length :=
          Nat.mod_lt _ (List.length_pos.mpr hsched)
        rw [List.getD_eq_getElem sched 0 hlt]
        exact List.getElem_mem hlt
      · exact ih (pos + 1) _ o ho'

theorem wmRun_counts_le (sources : List (List α)) (sched : List Nat) :
    ∀ (n pos : Nat) (st : WMState α) (j : Nat),
      st.counts.getD j 0 ≤ (wmRun sources sched n pos st).2.counts.getD j 0 := by
  intro n
  induction n with
  | zero =>
      intro pos st j
      simp [wmRun]
  | succ n ih =>
      intro pos st j
      simp only [wmRun]
      exact Nat.le_trans (wmNext_counts_le sources st _ j) (ih (pos + 1) _ j)

theorem wmRun_add (sources : List (List α)) (sched : List Nat) :
    ∀ (a b pos : Nat) (st : WMState α),
      (wmRun sources sched (a + b) pos st).2 =
        (wmRun sources sched b (pos + a) (wmRun sources sched a pos st).2).2 := by
  intro a
  induction a with
  | zero =>
      intro b pos st
      simp [wmRun]
  | succ a ih =>
      intro b pos st
      rw [show a + 1 + b = (a + b) + 1 from by omega]
      simp only [wmRun]
      rw [ih b (pos + 1) _]
      rw [show pos + 1 + a = pos + (a + 1) from by omega]

/-- C5: for a `WeightedMixer` over non-empty re-iterable sources of unequal
finite lengths, drawing `3 ×` the length of the shortest source never hits a
`StopIteration`-equivalent (every draw yields an item: an exhausted source is
transparently re-created), and the per-source restart counts — in particular
the shortest source's — are monotonically nondecreasing over those draws. -/
theorem claim_C5_weighted_mixer (α : Type) (sources : List (List α)) (sched : List Nat)
    (_hsrc0 : sources ≠ []) (hne : ∀ s ∈ sources, s ≠ [])
    (_hlen : (sources.map List.length).Pairwise (fun a b => a ≠ b))
    (hsched : sched ≠ []) (hidx : ∀ i ∈ sched, i < sources.length) :
    (∀ o ∈ (wmRun sources sched (3 * shortestLen sources) 0 (wmInit sources)).1,
        o.isSome = true) ∧
    (∀ k₁ k₂ j, k₁ ≤ k₂ → k₂ ≤ 3 * shortestLen sources →
        (wmRun sources sched k₁ 0 (wmInit sources)).2.counts.getD j 0 ≤
          (wmRun sources sched k₂ 0 (wmInit sources)).2.counts.getD j 0) := by
  have hsrc : ∀ i ∈ sched, sources.getD i [] ≠ [] := by
    intro i hi
    apply hne
    have hlt := hidx i hi
    rw [List.getD_eq_getElem sources [] hlt]
    exact List.getElem_mem hlt
  constructor
  · exact fun o ho =>
      wmRun_all_isSome sources sched hsched hsrc (3 * shortestLen sources) 0
        (wmInit sources) o ho
  · intro k₁ k₂ j hk _
    have hadd := wmRun_add sources sched k₁ (k₂ - k₁) 0 (wmInit sources)
    rw [show k₁ + (k₂ - k₁) = k₂ from by omega] at hadd
    rw [hadd]
    exact wmRun_counts_le sources sched (k₂ - k₁) (0 + k₁) _ j

/-- C5 witness: two sources of lengths 2 and 4 with an alternating schedule;
six draws (three times the shortest length). -/
theorem claim_C5_weighted_mixer_witness :
    ([[0, 1], [10, 11, 12, 13]] : List (List Nat)) ≠ [] ∧
      (∀ s ∈ ([[0, 1], [10, 11, 12, 13]] : List (List Nat)), s ≠ []) ∧
      (([[0, 1], [10, 11, 12, 13]] : List (List Nat)).map List.length).Pairwise
        (fun a b => a ≠ b) ∧
      ([0, 1] : List Nat) ≠ [] ∧
      (∀ i ∈ ([0, 1] : List Nat), i < ([[0, 1], [10, 11, 12, 13]] : List (List Nat)).length) ∧
      ((∀ o ∈ (wmRun [[0, 1], [10, 11, 12, 13]] [0, 1]
            (3 * shortestLen [[0, 1], [10, 11, 12, 13]]) 0
            (wmInit [[0, 1], [10, 11, 12, 13]])).1, o.isSome = true) ∧
        (∀ k₁ k₂ j, k₁ ≤ k₂ → k₂ ≤ 3 * shortestLen [[0, 1], [10, 11, 12, 13]] →
          (wmRun [[0, 1], [10, 11, 12, 13]] [0, 1] k₁ 0
              (wmInit [[0, 1], [10, 11, 12, 13]])).2.counts.getD j 0 ≤
            (wmRun [[0, 1], [10, 11, 12, 13]] [0, 1] k₂ 0
              (wmInit [[0, 1], [10, 11, 12, 13]])).2.counts.getD j 0)) :=
  ⟨by decide, by decide, by decide, by decide, by decide,
    claim_C5_weighted_mixer Nat [[0, 1], [10, 11, 12, 13]] [0, 1] (by decide) (by decide)
      (by decide) (by decide) (by decide)⟩

end Eole
